import Mathlib

/-!
Shallow embedding of the aurora compositor layout and frame-composition core:
`WindowManager` (src/window_manager.rs), `AppManger` (src/app_manager.rs), the
renderer functions `space_preview_elements` and `output_elements`
(src/renderer.rs), and the per-output `FullscreenSurface` slot
(src/shell/mod.rs).  Machine integers are modelled as `Int` (no computation here
approaches the `i32` range), and the two floating-point divisions inside the
preview-grid computation are modelled exactly; see `roundDiv` and `ceilDiv`.
-/

namespace Aurora

/-- A client window handle (`WindowElement`, src/shell/element.rs).

The smithay liveness flag of a window is shared state that asynchronous
callbacks may flip from `true` to `false` at any point between two reads
(death is permanent).  A pure embedding therefore samples it once per read
site: `alive` is the value read while pruning (`retain(|w| w.alive())` and
`Space::refresh`), `aliveAtResize` is the value a re-read immediately before a
resize request would observe later in the same layout pass.  Death being
permanent means `aliveAtResize = true → alive = true`; in a single-threaded
tick the two are equal.  `hasToplevel` mirrors `window.0.toplevel().is_some()`
(in smithay this is `None` only for non-Wayland windows, independent of
liveness). -/
structure Window where
  id : Nat
  alive : Bool
  aliveAtResize : Bool
  hasToplevel : Bool
deriving Repr, DecidableEq

/-- The logical geometry size of an output
(`space.output_geometry(&output).unwrap().size`); the first registered output
is mapped at the origin (`fixup_positions`, src/shell/mod.rs). -/
structure Output where
  w : Int
  h : Int
deriving Repr, DecidableEq

/-- The smithay `Space<WindowElement>`: the registered outputs in registration
order, and the mapped elements with their locations, bottom to top. -/
structure SpaceState where
  outputs : List Output
  mapped : List (Window × Int × Int)
deriving Repr, DecidableEq

/-- `Space::refresh()`: dead elements are dropped from the space. -/
def SpaceState.refresh (s : SpaceState) : SpaceState :=
  { s with mapped := s.mapped.filter (fun e => e.1.alive) }

/-- `Space::map_element(window, loc, true)`: (re)maps the window at `loc` and
raises it to the top of the stack. -/
def SpaceState.map_element (s : SpaceState) (w : Window) (x y : Int) : SpaceState :=
  { s with mapped := s.mapped.filter (fun e => e.1 != w) ++ [(w, x, y)] }

/-- `Space::unmap_elem(&window)`: removes the window from the space. -/
def SpaceState.unmap_elem (s : SpaceState) (w : Window) : SpaceState :=
  { s with mapped := s.mapped.filter (fun e => e.1 != w) }

/-- The location at which `w` is currently mapped in the space, if any. -/
def SpaceState.location (s : SpaceState) (w : Window) : Option (Int × Int) :=
  (s.mapped.find? (fun e => e.1 == w)).map (fun e => (e.2.1, e.2.2))

/-- `space.elements_for_output(output)` for the single-output spaces this
compositor builds: the mapped elements in stacking order. -/
def SpaceState.elements_for_output (s : SpaceState) : List Window :=
  s.mapped.map (fun e => e.1)

/-- The observable effects of one `refresh_geometry` pass: the resize requests
issued through `toplevel.with_pending_state` (window together with the
requested size, in issue order) and the resulting space. -/
structure LayoutResult where
  resizes : List (Window × Int × Int)
  space : SpaceState
deriving Repr, DecidableEq

/-- A layout pass either completes, or hits the Rust panic of
`space.outputs().next().cloned().unwrap()` when no output is registered.  The
panic unwinds out of the whole pass: nothing is logged and no later statement
of the pass runs. -/
inductive LayoutOutcome where
  | panicked
  | ok (result : LayoutResult)
deriving Repr, DecidableEq

/-- `WindowManager` (src/window_manager.rs): ordered vector of windows;
insertion order doubles as recency. -/
structure WindowManager where
  windows : List Window
deriving Repr, DecidableEq

/-- `WindowManager::new`. -/
def WindowManager.new : WindowManager := ⟨[]⟩

/-- `WindowManager::is_empty`. -/
def WindowManager.is_empty (m : WindowManager) : Bool :=
  m.windows.length == 0

/-- `WindowManager::insert_window`: appends (`Vec::push`). -/
def WindowManager.insert_window (m : WindowManager) (w : Window) : WindowManager :=
  ⟨m.windows ++ [w]⟩

/-- `WindowManager::get_active_window`: `Vec::last`. -/
def WindowManager.get_active_window (m : WindowManager) : Option Window :=
  m.windows.getLast?

/-- `WindowManager::remove_dead_window`: `retain(|w| w.alive())`. -/
def WindowManager.remove_dead_window (m : WindowManager) : WindowManager :=
  ⟨m.windows.filter (fun w => w.alive)⟩

/-- The loop body of `WindowManager::refresh_geometry`
(src/window_manager.rs:44-65) at reverse-enumeration index `iw.1`: index 0 gets
a resize request to the full output size (guarded only by
`window.0.toplevel()` being present) and is mapped at the origin; every other
index is unmapped. -/
def WindowManager.fullscreenStep (out : Output) (acc : LayoutResult)
    (iw : Nat × Window) : LayoutResult :=
  let i := iw.1
  let window := iw.2
  if i == 0 then
    let acc :=
      if window.hasToplevel then
        { acc with resizes := acc.resizes ++ [(window, out.w, out.h)] }
      else acc
    { acc with space := acc.space.map_element window 0 0 }
  else
    { acc with space := acc.space.unmap_elem window }

/-- `WindowManager::refresh_geometry` (src/window_manager.rs:33-66):
`space.refresh()`, prune, take the first registered output (panicking when
there is none), then iterate the windows in reverse insertion order. -/
def WindowManager.refresh_geometry (m : WindowManager) (space : SpaceState) :
    WindowManager × LayoutOutcome :=
  let space := space.refresh
  let m := m.remove_dead_window
  match space.outputs.head? with
  | none => (m, .panicked)
  | some out =>
      (m, .ok ((m.windows.reverse.enum).foldl (fullscreenStep out) ⟨[], space⟩))

/-- `Mode` (src/app_manager.rs:7-10). -/
inductive Mode where
  | INTERACTIVE
  | PREVIEW
deriving Repr, DecidableEq

/-- `AppManger` (src/app_manager.rs): ordered vector of apps plus the layout
mode (`new` starts in `PREVIEW`). -/
structure AppManger where
  apps : List Window
  mode : Mode
deriving Repr, DecidableEq

/-- `AppManger::new`. -/
def AppManger.new : AppManger := ⟨[], .PREVIEW⟩

/-- `AppManger::insert_window`: appends. -/
def AppManger.insert_window (m : AppManger) (w : Window) : AppManger :=
  { m with apps := m.apps ++ [w] }

/-- `AppManger::remove_dead_window`: `retain(|w| w.alive())`. -/
def AppManger.remove_dead_window (m : AppManger) : AppManger :=
  { m with apps := m.apps.filter (fun w => w.alive) }

/-- The loop body of the `Mode::INTERACTIVE` arm of
`AppManger::refresh_geometry` (src/app_manager.rs:52-74): same shape as
`WindowManager.fullscreenStep` (it omits only the xdg `Fullscreen` state
flag, which this model does not track). -/
def AppManger.interactiveStep (outW outH : Int) (acc : LayoutResult)
    (iw : Nat × Window) : LayoutResult :=
  let i := iw.1
  let window := iw.2
  if i == 0 then
    let acc :=
      if window.hasToplevel then
        { acc with resizes := acc.resizes ++ [(window, outW, outH)] }
      else acc
    { acc with space := acc.space.map_element window 0 0 }
  else
    { acc with space := acc.space.unmap_elem window }

/-- The loop body of the `Mode::PREVIEW` arm of `AppManger::refresh_geometry`
(src/app_manager.rs:76-102) at reverse-enumeration index `iw.1`, with
`padding = 200`. -/
def AppManger.previewStep (outW outH : Int) (acc : LayoutResult)
    (iw : Nat × Window) : LayoutResult :=
  let i := iw.1
  let window := iw.2
  let window_height := outH - 200 * 2
  let window_width := outW - 200 * 2
  let x : Int := if 0 < i then window_width * (i : Int) + 200 else 200
  let y : Int := 200
  let acc :=
    if window.hasToplevel then
      { acc with resizes := acc.resizes ++ [(window, window_width, window_height)] }
    else acc
  { acc with space := acc.space.map_element window x y }

/-- `AppManger::refresh_geometry` (src/app_manager.rs:36-104). -/
def AppManger.refresh_geometry (m : AppManger) (space : SpaceState) :
    AppManger × LayoutOutcome :=
  let space := space.refresh
  let m := m.remove_dead_window
  match space.outputs.head? with
  | none => (m, .panicked)
  | some out =>
      match m.mode with
      | .INTERACTIVE =>
          (m, .ok ((m.apps.reverse.enum).foldl (interactiveStep out.w out.h) ⟨[], space⟩))
      | .PREVIEW =>
          (m, .ok ((m.apps.reverse.enum).foldl (previewStep out.w out.h) ⟨[], space⟩))

/-- Exact model of `f64::round(a / b)` (round half away from zero) as it occurs
in `space_preview_elements` (src/renderer.rs:121-124): `a` is a nonnegative
logical output dimension and `b` a positive integer (a column or row count).
In that range the floating division is never within rounding error of a
half-integer tie it does not hit exactly, so the rounded value equals the exact
`⌊(2a + b) / (2b)⌋` (Int division is floor division). -/
def roundDiv (a b : Int) : Int :=
  (2 * a + b) / (2 * b)

/-- Exact model of `f64::ceil(a / b)` for natural `a` and positive natural `b`
(src/renderer.rs:118): the divisions performed there (`b = min a 4`) are exact
or far from integer boundaries, so the result is the exact ceiling division. -/
def ceilDiv (a b : Nat) : Nat :=
  (a + b - 1) / b

/-- `preview_padding` (src/renderer.rs:98). -/
def preview_padding : Int := 10

/-- `max_elements_per_row` (src/renderer.rs:116). -/
def max_elements_per_row : Nat := 4

/-- `elements_per_row` for `n` elements (src/renderer.rs:117). -/
def gridColumns (n : Nat) : Nat :=
  min n max_elements_per_row

/-- `rows` for `n` elements (src/renderer.rs:118). -/
def gridRows (n : Nat) : Nat :=
  ceilDiv n (gridColumns n)

/-- An integer rectangle: location and size, as smithay
`Rectangle<i32, Logical>`. -/
structure PRect where
  x : Int
  y : Int
  w : Int
  h : Int
deriving Repr, DecidableEq

/-- The preview cell (`preview_location`, `preview_size`) that
`space_preview_elements` (src/renderer.rs:115-142) computes for element index
`i` out of `n` elements on an output of logical size `W × H`. -/
def previewCell (n : Nat) (W H : Int) (i : Nat) : PRect :=
  let elements_per_row := gridColumns n
  let rows := gridRows n
  let cellW := roundDiv W (elements_per_row : Int) - preview_padding * 2
  let cellH := roundDiv H (rows : Int) - preview_padding * 2
  let column := i % elements_per_row
  let row := i / elements_per_row
  { x := preview_padding + (preview_padding + cellW) * (column : Int)
    y := preview_padding + (preview_padding + cellH) * (row : Int)
    w := cellW
    h := cellH }

/-- The grid of preview cells for `n` elements. -/
def previewRects (n : Nat) (W H : Int) : List PRect :=
  (List.range n).map (previewCell n W H)

/-- The `OutputRenderElements` variants (src/renderer.rs:52-58) emitted by
`output_elements`; payloads identify the underlying element.  `Window` is the
wrap used on the fullscreen path, `Preview` carries the window identity and
the cell the preview is constrained to. -/
inductive ORElem where
  | Space (id : Nat)
  | Window (wid : Nat) (eid : Nat)
  | Custom (id : Nat)
  | Preview (wid : Nat) (cell : PRect)
deriving Repr, DecidableEq

/-- Discriminator for the `Space` variant. -/
def ORElem.isSpaceElem : ORElem → Bool
  | .Space _ => true
  | _ => false

/-- Discriminator for the `Window` variant. -/
def ORElem.isWindowElem : ORElem → Bool
  | .Window _ _ => true
  | _ => false

/-- Discriminator for the `Custom` variant. -/
def ORElem.isCustomElem : ORElem → Bool
  | .Custom _ => true
  | _ => false

/-- Discriminator for the `Preview` variant. -/
def ORElem.isPreviewElem : ORElem → Bool
  | .Preview _ _ => true
  | _ => false

/-- `CLEAR_COLOR` (src/renderer.rs:30), the opaque background; the exact float
components 0.0 and 1.0 are modelled as integers. -/
def CLEAR_COLOR : List Int := [0, 0, 0, 1]

/-- `CLEAR_COLOR_FULLSCREEN` (src/renderer.rs:31), fully transparent. -/
def CLEAR_COLOR_FULLSCREEN : List Int := [0, 0, 0, 0]

/-- `FullscreenSurface::get` (src/shell/mod.rs:73-79) applied to the slot
contents: liveness is re-checked at read time, a dead window reads as an empty
slot (the Rust code also clears the slot; only the returned value matters
here). -/
def FullscreenSurface.get (slot : Option Window) : Option Window :=
  match slot with
  | some w => if w.alive then some w else none
  | none => none

/-- The per-output state that `output_elements` reads: the logical geometry and
the `FullscreenSurface` slot stored in `output.user_data()`. -/
structure OutputState where
  geometry : Output
  fullscreen_slot : Option Window
deriving Repr, DecidableEq

/-- `space_preview_elements` (src/renderer.rs:80-155): one constrained preview
per element of `space.elements_for_output(output)`, enumerated onto the grid.
`constrain_space_element` is external; the model keeps the window identity and
the cell that bounds its preview. -/
def space_preview_elements (space : SpaceState) (W H : Int) : List ORElem :=
  let elems := space.elements_for_output
  let elements_on_space := elems.length
  elems.enum.map (fun iw => ORElem.Preview iw.2.id (previewCell elements_on_space W H iw.1))

/-- `output_elements` (src/renderer.rs:173-228).  External collaborators enter
as parameters: `windowRender w` stands for
`AsRenderElements::render_elements(&window, renderer, (0, 0), scale, 1.0)`
(the render elements of `w` at the origin) and `spaceElems` for
`smithay::desktop::space::space_render_elements(renderer, [space], output, 1.0)`. -/
def output_elements (out : OutputState) (space : SpaceState)
    (custom_elements : List Nat) (windowRender : Window → List Nat)
    (spaceElems : List Nat) (show_window_preview : Bool) :
    List ORElem × List Int :=
  match FullscreenSurface.get out.fullscreen_slot with
  | some window =>
      let window_render_elements :=
        (windowRender window).map (fun e => ORElem.Window window.id e)
      (custom_elements.map ORElem.Custom ++ window_render_elements, CLEAR_COLOR_FULLSCREEN)
  | none =>
      let output_render_elements := custom_elements.map ORElem.Custom
      let output_render_elements :=
        if show_window_preview && decide (0 < space.elements_for_output.length) then
          output_render_elements ++
            space_preview_elements space out.geometry.w out.geometry.h
        else output_render_elements
      (output_render_elements ++ spaceElems.map ORElem.Space, CLEAR_COLOR)

/-- Membership of an integer point in a rectangle (half-open on both axes). -/
def PRect.Mem (r : PRect) (p : Int × Int) : Prop :=
  r.x ≤ p.1 ∧ p.1 < r.x + r.w ∧ r.y ≤ p.2 ∧ p.2 < r.y + r.h

/-- Two rectangles are disjoint when no point lies in both. -/
def PRect.Disjoint (a b : PRect) : Prop :=
  ∀ p : Int × Int, ¬(a.Mem p ∧ b.Mem p)

/-- `a` lies fully within `b`: every point of `a` is a point of `b`. -/
def PRect.Within (a b : PRect) : Prop :=
  ∀ p : Int × Int, a.Mem p → b.Mem p

/-- The thumbnail-grid cell exactly as claim C4 words it: columns = min(N, 4),
rows = ceil(N / columns), cell width = round(W / columns) − 2p, cell height =
round(H / rows) − 2p, element i at column i mod columns and row i div columns,
location (p + (p + cellW)·column, p + (p + cellH)·row), with p = 10.  This is
the claim-side definition, to be compared with the source-derived
`previewCell`. -/
def claimGridCell (n : Nat) (W H : Int) (i : Nat) : PRect :=
  let columns := min n 4
  let rows := ceilDiv n columns
  let p : Int := 10
  let cellW := roundDiv W (columns : Int) - 2 * p
  let cellH := roundDiv H (rows : Int) - 2 * p
  let column := i % columns
  let row := i / columns
  { x := p + (p + cellW) * (column : Int)
    y := p + (p + cellH) * (row : Int)
    w := cellW
    h := cellH }

/-- Demo window A (first inserted). -/
def winA : Window := ⟨1, true, true, true⟩

/-- Demo window B. -/
def winB : Window := ⟨2, true, true, true⟩

/-- Demo window C (most recently inserted). -/
def winC : Window := ⟨3, true, true, true⟩

/-- A window that no longer reports alive. -/
def deadWindow : Window := ⟨4, false, false, true⟩

/-- A window alive while pruning whose liveness flag is flipped to false by an
asynchronous callback before the layout loop issues its resize request. -/
def dyingWindow : Window := ⟨7, true, false, true⟩

/-- A 1920×1080 output. -/
def demoOutput : Output := ⟨1920, 1080⟩

/-- A space with one registered 1920×1080 output and nothing mapped yet. -/
def demoSpace : SpaceState := ⟨[demoOutput], []⟩

/-! Helper lemmas about the space operations. -/

theorem find?_key_filter_ne (l : List (Window × Int × Int)) (w v : Window)
    (hwv : w ≠ v) :
    (l.filter (fun e => e.1 != v)).find? (fun e => e.1 == w) =
      l.find? (fun e => e.1 == w) := by
  induction l with
  | nil => rfl
  | cons e t ih =>
    by_cases hev : e.1 = v
    · have h1 : (e.1 != v) = false := by simp [hev]
      have h2 : (e.1 == w) = false := by simp [hev]; exact fun h => hwv h.symm
      simp [List.filter_cons, h1, List.find?_cons, h2, ih]
    · have h1 : (e.1 != v) = true := by simp [hev]
      by_cases hew : e.1 = w
      · simp [List.filter_cons, h1, List.find?_cons, show (e.1 == w) = true from by simp [hew]]
      · have h2 : (e.1 == w) = false := by simp [hew]
        simp [List.filter_cons, h1, List.find?_cons, h2, ih]

theorem location_map_element_self (s : SpaceState) (w : Window) (x y : Int) :
    (s.map_element w x y).location w = some (x, y) := by
  unfold SpaceState.map_element SpaceState.location
  rw [List.find?_append]
  have h1 : (s.mapped.filter (fun e => e.1 != w)).find? (fun e => e.1 == w) = none := by
    rw [List.find?_eq_none]
    intro e he
    rcases List.mem_filter.mp he with ⟨_, hne⟩
    simpa using (bne_iff_ne.mp hne)
  rw [h1]
  simp

theorem location_map_element_ne (s : SpaceState) (w v : Window) (x y : Int)
    (hwv : w ≠ v) :
    (s.map_element v x y).location w = s.location w := by
  unfold SpaceState.map_element SpaceState.location
  rw [List.find?_append, find?_key_filter_ne _ _ _ hwv]
  have h2 : ([(v, x, y)].find? (fun e => e.1 == w)) = none := by
    rw [List.find?_eq_none]
    intro e he
    simp at he
    subst he
    simp
    exact fun h => hwv h.symm
  rw [h2, Option.or_none]

theorem location_unmap_elem_self (s : SpaceState) (w : Window) :
    (s.unmap_elem w).location w = none := by
  unfold SpaceState.unmap_elem SpaceState.location
  have h1 : (s.mapped.filter (fun e => e.1 != w)).find? (fun e => e.1 == w) = none := by
    rw [List.find?_eq_none]
    intro e he
    rcases List.mem_filter.mp he with ⟨_, hne⟩
    simpa using (bne_iff_ne.mp hne)
  rw [h1]
  rfl

theorem location_unmap_elem_ne (s : SpaceState) (w v : Window) (hwv : w ≠ v) :
    (s.unmap_elem v).location w = s.location w := by
  unfold SpaceState.unmap_elem SpaceState.location
  rw [find?_key_filter_ne _ _ _ hwv]

/-! Claim C8: pruning. -/

/-- Claim C8: after `prune()` (`remove_dead_window`, both managers) every
surviving window is alive, no live window is removed, and the survivors keep
their relative order (the surviving list is a sublist of the original). -/
theorem prune_removes_exactly_dead (m : WindowManager) (am : AppManger) :
    (∀ w ∈ m.remove_dead_window.windows, w.alive = true) ∧
    (∀ w ∈ m.windows, w.alive = true → w ∈ m.remove_dead_window.windows) ∧
    m.remove_dead_window.windows.Sublist m.windows ∧
    (∀ w ∈ am.remove_dead_window.apps, w.alive = true) ∧
    (∀ w ∈ am.apps, w.alive = true → w ∈ am.remove_dead_window.apps) ∧
    am.remove_dead_window.apps.Sublist am.apps := by
  unfold WindowManager.remove_dead_window AppManger.remove_dead_window
  refine ⟨?_, ?_, List.filter_sublist _, ?_, ?_, List.filter_sublist _⟩
  · intro w hw
    exact (List.mem_filter.mp hw).2
  · intro w hw ha
    exact List.mem_filter.mpr ⟨hw, ha⟩
  · intro w hw
    exact (List.mem_filter.mp hw).2
  · intro w hw ha
    exact List.mem_filter.mpr ⟨hw, ha⟩

/-- Claim C8 witness: pruning `[winA, deadWindow]` keeps the live window and
drops the dead one. -/
theorem prune_removes_exactly_dead_witness :
    winA ∈ (WindowManager.mk [winA, deadWindow]).remove_dead_window.windows ∧
    ∀ w ∈ (WindowManager.mk [winA, deadWindow]).remove_dead_window.windows,
      w.alive = true :=
  ⟨(prune_removes_exactly_dead ⟨[winA, deadWindow]⟩ AppManger.new).2.1 winA
      (by decide) (by decide),
   (prune_removes_exactly_dead ⟨[winA, deadWindow]⟩ AppManger.new).1⟩

/-! Claim C9: the active window. -/

/-- Claim C9 counterexample: a non-empty set holding one dead window has that
dead window as its active window; it is not live, and a "most recently
inserted live" window does not even exist, so the claim fails as stated over
all window sets. -/
theorem active_window_cex :
    WindowManager.get_active_window ⟨[deadWindow]⟩ = some deadWindow ∧
    deadWindow.alive = false ∧
    ([deadWindow].filter (fun v => v.alive)).getLast? = none := by
  decide

/-- Claim C9 (amended): `active()` returns none exactly when the set is empty
and otherwise the last (most recently inserted) element; whenever that last
element is live — in particular immediately after `prune()` — it is the most
recently inserted live window. -/
theorem active_window_spec (m : WindowManager) :
    (m.get_active_window = none ↔ m.windows = []) ∧
    m.get_active_window = m.windows.getLast? ∧
    (∀ w, m.get_active_window = some w → w.alive = true →
      (m.windows.filter (fun v => v.alive)).getLast? = some w) := by
  refine ⟨?_, rfl, ?_⟩
  · unfold WindowManager.get_active_window
    exact List.getLast?_eq_none_iff
  · intro w hw halive
    unfold WindowManager.get_active_window at hw
    have hrev : m.windows.reverse.head? = some w := by
      rw [List.head?_reverse]
      exact hw
    obtain ⟨t, ht⟩ : ∃ t, m.windows.reverse = w :: t := by
      cases hr : m.windows.reverse with
      | nil => rw [hr] at hrev; simp at hrev
      | cons a t =>
          rw [hr] at hrev
          simp at hrev
          exact ⟨t, by rw [hrev]⟩
    rw [List.getLast?_eq_head?_reverse, ← List.filter_reverse, ht]
    simp [List.filter_cons, halive]

/-- Claim C9 witness: on `[winA, winC]` the active window is `winC`, which is
live, and it is also the last live window. -/
theorem active_window_spec_witness :
    (WindowManager.get_active_window ⟨[winA, winC]⟩ = none ↔
      ([winA, winC] : List Window) = []) ∧
    WindowManager.get_active_window ⟨[winA, winC]⟩ =
      ([winA, winC] : List Window).getLast? ∧
    (([winA, winC] : List Window).filter (fun v => v.alive)).getLast? = some winC :=
  ⟨(active_window_spec ⟨[winA, winC]⟩).1, (active_window_spec ⟨[winA, winC]⟩).2.1,
   (active_window_spec ⟨[winA, winC]⟩).2.2 winC (by decide) (by decide)⟩

/-! Claim C6: layout with zero outputs. -/

/-- Claim C6 counterexample: the claim as stated demands a logged abort that is
fatal for that tick only, leaving state usable for the next tick — that is, an
outcome other than a process panic.  With zero registered outputs the call in
fact hits the `unwrap()` panic (`LayoutOutcome.panicked` models the Rust panic
that unwinds the whole pass unlogged). -/
theorem layout_no_output_cex :
    (WindowManager.refresh_geometry ⟨[winA]⟩ ⟨[], []⟩).2 = .panicked := by
  decide

/-- Claim C6 (amended): invoking layout with zero registered outputs panics via
`unwrap()` in both layout entry points: the cycle is aborted before any resize
or map action is issued and nothing silently proceeds, but the failure is an
unlogged panic that unwinds the pass, not a tick-local recoverable abort. -/
theorem layout_no_output_panics (m : WindowManager) (am : AppManger)
    (s : SpaceState) (h : s.outputs = []) :
    (m.refresh_geometry s).2 = .panicked ∧ (am.refresh_geometry s).2 = .panicked := by
  have hout : s.refresh.outputs = [] := h
  simp [WindowManager.refresh_geometry, AppManger.refresh_geometry, hout]

/-- Claim C6 witness: concrete zero-output invocation for both managers. -/
theorem layout_no_output_panics_witness :
    (WindowManager.refresh_geometry ⟨[winA]⟩ ⟨[], []⟩).2 = .panicked ∧
    (AppManger.refresh_geometry ⟨[winA], .PREVIEW⟩ ⟨[], []⟩).2 = .panicked :=
  layout_no_output_panics ⟨[winA]⟩ ⟨[winA], .PREVIEW⟩ ⟨[], []⟩ rfl

/-! Fold lemmas for the layout loops. -/

theorem fullscreenStep_tail_eq (out : Output) (l : List (Nat × Window)) :
    ∀ acc : LayoutResult, (∀ p ∈ l, p.1 ≠ 0) →
      l.foldl (WindowManager.fullscreenStep out) acc =
        ⟨acc.resizes, l.foldl (fun sp p => sp.unmap_elem p.2) acc.space⟩ := by
  induction l with
  | nil => intro acc _; rfl
  | cons p t ih =>
    intro acc h
    have hp : (p.1 == 0) = false := by
      simpa using h p (List.mem_cons_self p t)
    have hstep : WindowManager.fullscreenStep out acc p =
        { acc with space := acc.space.unmap_elem p.2 } := by
      simp [WindowManager.fullscreenStep, hp]
    rw [List.foldl_cons, List.foldl_cons, hstep]
    exact ih _ (fun q hq => h q (List.mem_cons_of_mem p hq))

theorem foldl_unmap_location (l : List (Nat × Window)) :
    ∀ (sp : SpaceState) (w : Window),
      (l.foldl (fun s p => s.unmap_elem p.2) sp).location w =
        if w ∈ l.map Prod.snd then none else sp.location w := by
  induction l with
  | nil => intro sp w; simp
  | cons p t ih =>
    intro sp w
    rw [List.foldl_cons, ih]
    by_cases hw : w = p.2
    · have h1 : (sp.unmap_elem p.2).location w = none := by
        rw [hw]; exact location_unmap_elem_self sp p.2
      rw [if_pos (show w ∈ (p :: t).map Prod.snd from by
        rw [List.map_cons, hw]; exact List.mem_cons_self _ _)]
      by_cases hmem : w ∈ t.map Prod.snd
      · rw [if_pos hmem]
      · rw [if_neg hmem, h1]
    · have h1 : (sp.unmap_elem p.2).location w = sp.location w :=
        location_unmap_elem_ne sp w p.2 hw
      by_cases hmem : w ∈ t.map Prod.snd
      · rw [if_pos hmem, if_pos (show w ∈ (p :: t).map Prod.snd from by
          rw [List.map_cons]; exact List.mem_cons_of_mem _ hmem)]
      · rw [if_neg hmem, if_neg (show w ∉ (p :: t).map Prod.snd from by
          rw [List.map_cons]; simp [List.mem_cons, hw, hmem]), h1]

theorem foldl_map_element_location_not_mem (l : List (Window × Int × Int)) :
    ∀ (sp : SpaceState) (w : Window), w ∉ l.map (fun e => e.1) →
      (l.foldl (fun s e => s.map_element e.1 e.2.1 e.2.2) sp).location w =
        sp.location w := by
  induction l with
  | nil => intro sp w _; rfl
  | cons e t ih =>
    intro sp w hw
    simp only [List.map_cons, List.mem_cons] at hw
    push_neg at hw
    rw [List.foldl_cons, ih _ _ hw.2,
      location_map_element_ne sp w e.1 e.2.1 e.2.2 hw.1]

theorem foldl_map_element_location_mem (l : List (Window × Int × Int)) :
    ∀ (sp : SpaceState) (e : Window × Int × Int), e ∈ l →
      (l.map (fun x => x.1)).Nodup →
      (l.foldl (fun s x => s.map_element x.1 x.2.1 x.2.2) sp).location e.1 =
        some (e.2.1, e.2.2) := by
  induction l with
  | nil => intro sp e he _; cases he
  | cons f t ih =>
    intro sp e he hnd
    simp only [List.map_cons, List.nodup_cons] at hnd
    rw [List.foldl_cons]
    rcases List.mem_cons.mp he with rfl | hmem
    · rw [foldl_map_element_location_not_mem t _ e.1 hnd.1,
        location_map_element_self]
    · exact ih _ e hmem hnd.2

theorem previewFold_eq (Wd Ht : Int) (l : List (Nat × Window)) :
    ∀ acc : LayoutResult, (∀ p ∈ l, p.2.hasToplevel = true) →
      l.foldl (AppManger.previewStep Wd Ht) acc =
        ⟨acc.resizes ++ l.map (fun p => (p.2, Wd - 200 * 2, Ht - 200 * 2)),
         (l.map (fun p => ((p.2 : Window),
             (if 0 < p.1 then (Wd - 200 * 2) * (p.1 : Int) + 200 else 200),
             (200 : Int)))).foldl
           (fun s x => s.map_element x.1 x.2.1 x.2.2) acc.space⟩ := by
  induction l with
  | nil => intro acc _; simp
  | cons p t ih =>
    intro acc h
    have hp : p.2.hasToplevel = true := h p (List.mem_cons_self p t)
    have hstep : AppManger.previewStep Wd Ht acc p =
        ⟨acc.resizes ++ [(p.2, Wd - 200 * 2, Ht - 200 * 2)],
         acc.space.map_element p.2
           (if 0 < p.1 then (Wd - 200 * 2) * (p.1 : Int) + 200 else 200) 200⟩ := by
      simp [AppManger.previewStep, hp]
    rw [List.foldl_cons, hstep, ih _ (fun q hq => h q (List.mem_cons_of_mem p hq))]
    simp [List.map_cons, List.foldl_cons]

/-! Claim C1: fullscreen layout. -/

/-- Claim C1: with at least one registered output and a window set whose
windows are live, have toplevel handles and are distinct,
`WindowManager::refresh_geometry` issues exactly one resize request — the most
recently inserted window, to the full output size — maps that window at the
origin and unmaps every other window of the set from the space. -/
theorem fullscreen_layout_spec (m : WindowManager) (s : SpaceState)
    (out : Output) (rest : List Output) (active : Window)
    (hout : s.outputs = out :: rest)
    (halive : ∀ w ∈ m.windows, w.alive = true)
    (htop : ∀ w ∈ m.windows, w.hasToplevel = true)
    (hnodup : m.windows.Nodup)
    (hlast : m.windows.getLast? = some active) :
    ∃ r, (m.refresh_geometry s).2 = .ok r ∧
      r.resizes = [(active, out.w, out.h)] ∧
      r.space.location active = some (0, 0) ∧
      ∀ w ∈ m.windows, w ≠ active → r.space.location w = none := by
  have hprune : m.windows.filter (fun w => w.alive) = m.windows :=
    List.filter_eq_self.mpr halive
  obtain ⟨t, ht⟩ : ∃ t, m.windows.reverse = active :: t := by
    have hh : m.windows.reverse.head? = some active := by
      rw [List.head?_reverse]; exact hlast
    cases hr : m.windows.reverse with
    | nil => rw [hr] at hh; simp at hh
    | cons a u =>
        rw [hr] at hh
        simp at hh
        exact ⟨u, by rw [hh]⟩
  have hactive_mem : active ∈ m.windows := by
    rw [← List.mem_reverse, ht]
    exact List.mem_cons_self _ _
  have hnt : active ∉ t := by
    have hcons : (active :: t).Nodup := ht ▸ List.nodup_reverse.mpr hnodup
    exact (List.nodup_cons.mp hcons).1
  have hsout : s.refresh.outputs = out :: rest := hout
  have htail : ∀ p ∈ t.enumFrom 1, p.1 ≠ 0 := by
    intro p hp
    rcases p with ⟨i, x⟩
    have h1 := (List.mem_enumFrom hp).1
    omega
  have hgeom : (m.refresh_geometry s).2 =
      .ok (((active :: t).enum).foldl (WindowManager.fullscreenStep out)
        ⟨[], s.refresh⟩) := by
    simp [WindowManager.refresh_geometry, WindowManager.remove_dead_window,
      hsout, hprune, ht]
  have hstep0 : WindowManager.fullscreenStep out ⟨[], s.refresh⟩ (0, active) =
      ⟨[(active, out.w, out.h)], s.refresh.map_element active 0 0⟩ := by
    simp [WindowManager.fullscreenStep, htop active hactive_mem]
  have hfold : ((active :: t).enum).foldl (WindowManager.fullscreenStep out)
      ⟨[], s.refresh⟩ =
      ⟨[(active, out.w, out.h)],
       (t.enumFrom 1).foldl (fun sp p => sp.unmap_elem p.2)
         (s.refresh.map_element active 0 0)⟩ := by
    rw [List.enum_cons, List.foldl_cons, hstep0,
      fullscreenStep_tail_eq out (t.enumFrom 1) _ htail]
  refine ⟨_, hgeom.trans (by rw [hfold]), rfl, ?_, ?_⟩
  · rw [foldl_unmap_location, List.enumFrom_map_snd, if_neg hnt,
      location_map_element_self]
  · intro w hw hwa
    have hwt : w ∈ t := by
      have : w ∈ active :: t := by rw [← ht, List.mem_reverse]; exact hw
      rcases List.mem_cons.mp this with h | h
      · exact absurd h hwa
      · exact h
    rw [foldl_unmap_location, List.enumFrom_map_snd, if_pos hwt]

/-- Claim C1 witness: scenario 1 — windows inserted A, B, C on a 1920×1080
output; C is resized to 1920×1080 and mapped at the origin, A and B are
unmapped. -/
theorem fullscreen_layout_spec_witness :
    ∃ r, (WindowManager.refresh_geometry ⟨[winA, winB, winC]⟩ demoSpace).2 = .ok r ∧
      r.resizes = [(winC, demoOutput.w, demoOutput.h)] ∧
      r.space.location winC = some (0, 0) ∧
      ∀ w ∈ [winA, winB, winC], w ≠ winC → r.space.location w = none :=
  fullscreen_layout_spec ⟨[winA, winB, winC]⟩ demoSpace demoOutput [] winC rfl
    (by decide) (by decide) (by decide) (by decide)

/-! Claim C2: overview (PREVIEW) layout. -/

/-- Claim C2: in `Mode::PREVIEW` with padding 200 on an output of size W×H,
every window receives a resize request to (W − 2·200, H − 2·200), and —
iterating in reverse insertion order — the window at index 0 is mapped at
(200, 200) while each index i > 0 is mapped at ((W − 400)·i + 200, 200): the
x offset multiplies the resized width by the index, accumulating neither the
widths of prior windows nor inter-window spacing. -/
theorem overview_layout_spec (m : AppManger) (s : SpaceState) (out : Output)
    (rest : List Output)
    (hmode : m.mode = .PREVIEW)
    (hout : s.outputs = out :: rest)
    (halive : ∀ w ∈ m.apps, w.alive = true)
    (htop : ∀ w ∈ m.apps, w.hasToplevel = true)
    (hnodup : m.apps.Nodup) :
    ∃ r, (m.refresh_geometry s).2 = .ok r ∧
      r.resizes = m.apps.reverse.map (fun w => (w, out.w - 400, out.h - 400)) ∧
      ∀ iw ∈ m.apps.reverse.enum,
        r.space.location iw.2 =
          some (if iw.1 = 0 then 200 else (out.w - 400) * (iw.1 : Int) + 200, 200) := by
  have hprune : m.apps.filter (fun w => w.alive) = m.apps :=
    List.filter_eq_self.mpr halive
  have hsout : s.refresh.outputs = out :: rest := hout
  have hgeom : (m.refresh_geometry s).2 =
      .ok ((m.apps.reverse.enum).foldl (AppManger.previewStep out.w out.h)
        ⟨[], s.refresh⟩) := by
    simp [AppManger.refresh_geometry, AppManger.remove_dead_window, hsout,
      hprune, hmode]
  have htop' : ∀ p ∈ m.apps.reverse.enum, p.2.hasToplevel = true := by
    intro p hp
    apply htop
    rw [← List.mem_reverse]
    have hmem : p.2 ∈ m.apps.reverse.enum.map Prod.snd := List.mem_map_of_mem _ hp
    rwa [List.enum_map_snd] at hmem
  have hfold := previewFold_eq out.w out.h (m.apps.reverse.enum) ⟨[], s.refresh⟩ htop'
  refine ⟨_, hgeom.trans (by rw [hfold]), ?_, ?_⟩
  · show [] ++ m.apps.reverse.enum.map
        (fun p => (p.2, out.w - 200 * 2, out.h - 200 * 2)) =
      m.apps.reverse.map (fun w => (w, out.w - 400, out.h - 400))
    rw [List.nil_append,
      show (fun p : Nat × Window => ((p.2 : Window), out.w - 200 * 2, out.h - 200 * 2)) =
        (fun w : Window => (w, out.w - 400, out.h - 400)) ∘ Prod.snd from by
          funext p; norm_num,
      ← List.map_map, List.enum_map_snd]
  · intro iw hiw
    have hkeys : ((m.apps.reverse.enum.map (fun p => ((p.2 : Window),
        (if 0 < p.1 then (out.w - 200 * 2) * (p.1 : Int) + 200 else 200),
        (200 : Int)))).map (fun x => x.1)).Nodup := by
      rw [List.map_map,
        show ((fun x : Window × Int × Int => x.1) ∘
          (fun p : Nat × Window => ((p.2 : Window),
            (if 0 < p.1 then (out.w - 200 * 2) * (p.1 : Int) + 200 else 200),
            (200 : Int)))) = Prod.snd from by funext p; rfl,
        List.enum_map_snd]
      exact List.nodup_reverse.mpr hnodup
    have hmem : ((iw.2 : Window),
        (if 0 < iw.1 then (out.w - 200 * 2) * (iw.1 : Int) + 200 else 200),
        (200 : Int)) ∈ m.apps.reverse.enum.map (fun p => ((p.2 : Window),
          (if 0 < p.1 then (out.w - 200 * 2) * (p.1 : Int) + 200 else 200),
          (200 : Int))) :=
      List.mem_map_of_mem _ hiw
    have hloc := foldl_map_element_location_mem _ s.refresh _ hmem hkeys
    rw [hloc]
    by_cases h0 : iw.1 = 0
    · simp [h0]
    · have hpos : 0 < iw.1 := Nat.pos_of_ne_zero h0
      simp only [if_pos hpos, if_neg h0]
      norm_num

/-- Claim C2 witness: scenario 2 — windows A, B, C in PREVIEW mode on a
1920×1080 output: every window is resized to 1520×680; C (index 0) is at
(200, 200), B (index 1) at (1720, 200), A (index 2) at (3240, 200). -/
theorem overview_layout_spec_witness :
    ∃ r, (AppManger.refresh_geometry ⟨[winA, winB, winC], .PREVIEW⟩ demoSpace).2 = .ok r ∧
      r.resizes = ([winA, winB, winC] : List Window).reverse.map
        (fun w => (w, demoOutput.w - 400, demoOutput.h - 400)) ∧
      ∀ iw ∈ ([winA, winB, winC] : List Window).reverse.enum,
        r.space.location iw.2 =
          some (if iw.1 = 0 then 200 else (demoOutput.w - 400) * (iw.1 : Int) + 200, 200) :=
  overview_layout_spec ⟨[winA, winB, winC], .PREVIEW⟩ demoSpace demoOutput [] rfl rfl
    (by decide) (by decide) (by decide)

/-! Claim C3: frame-composition paths. -/

/-- Claim C3: per output and tick, `output_elements` takes exactly one of two
mutually exclusive paths.  With a live fullscreen-override window it emits the
caller overlay elements followed by that window render elements at the origin
with the fully transparent clear color, and no preview-grid or space
elements; otherwise it emits overlay elements, the preview grid only when
previews are enabled and at least one element is on the output, then the
stacked space elements, with the opaque clear color — and never any
fullscreen-path window element. -/
theorem frame_composition_paths (out : OutputState) (space : SpaceState)
    (custom : List Nat) (windowRender : Window → List Nat) (spaceElems : List Nat)
    (show_window_preview : Bool) :
    (∀ w, FullscreenSurface.get out.fullscreen_slot = some w →
      output_elements out space custom windowRender spaceElems show_window_preview =
        (custom.map ORElem.Custom ++
          (windowRender w).map (fun e => ORElem.Window w.id e),
         CLEAR_COLOR_FULLSCREEN) ∧
      ∀ e ∈ (output_elements out space custom windowRender spaceElems
          show_window_preview).1,
        e.isPreviewElem = false ∧ e.isSpaceElem = false) ∧
    (FullscreenSurface.get out.fullscreen_slot = none →
      output_elements out space custom windowRender spaceElems show_window_preview =
        (custom.map ORElem.Custom ++
          (if show_window_preview && decide (0 < space.elements_for_output.length)
           then space_preview_elements space out.geometry.w out.geometry.h
           else []) ++ spaceElems.map ORElem.Space,
         CLEAR_COLOR) ∧
      ∀ e ∈ (output_elements out space custom windowRender spaceElems
          show_window_preview).1,
        e.isWindowElem = false) ∧
    ¬((∃ e ∈ (output_elements out space custom windowRender spaceElems
          show_window_preview).1, e.isWindowElem = true) ∧
      (∃ e ∈ (output_elements out space custom windowRender spaceElems
          show_window_preview).1, e.isSpaceElem = true ∨ e.isPreviewElem = true)) := by
  have hfsPart : ∀ w, FullscreenSurface.get out.fullscreen_slot = some w →
      output_elements out space custom windowRender spaceElems show_window_preview =
        (custom.map ORElem.Custom ++
          (windowRender w).map (fun e => ORElem.Window w.id e),
         CLEAR_COLOR_FULLSCREEN) ∧
      ∀ e ∈ (output_elements out space custom windowRender spaceElems
          show_window_preview).1,
        e.isPreviewElem = false ∧ e.isSpaceElem = false := by
    intro w hw
    have hdef : output_elements out space custom windowRender spaceElems
        show_window_preview =
        (custom.map ORElem.Custom ++
          (windowRender w).map (fun e => ORElem.Window w.id e),
         CLEAR_COLOR_FULLSCREEN) := by
      unfold output_elements
      rw [hw]
    refine ⟨hdef, ?_⟩
    intro e he
    rw [hdef] at he
    simp only [List.mem_append, List.mem_map] at he
    rcases he with ⟨c, _, rfl⟩ | ⟨c, _, rfl⟩ <;> exact ⟨rfl, rfl⟩
  have hnPart : FullscreenSurface.get out.fullscreen_slot = none →
      output_elements out space custom windowRender spaceElems show_window_preview =
        (custom.map ORElem.Custom ++
          (if show_window_preview && decide (0 < space.elements_for_output.length)
           then space_preview_elements space out.geometry.w out.geometry.h
           else []) ++ spaceElems.map ORElem.Space,
         CLEAR_COLOR) ∧
      ∀ e ∈ (output_elements out space custom windowRender spaceElems
          show_window_preview).1,
        e.isWindowElem = false := by
    intro hn
    have hdef : output_elements out space custom windowRender spaceElems
        show_window_preview =
        (custom.map ORElem.Custom ++
          (if show_window_preview && decide (0 < space.elements_for_output.length)
           then space_preview_elements space out.geometry.w out.geometry.h
           else []) ++ spaceElems.map ORElem.Space,
         CLEAR_COLOR) := by
      simp only [output_elements, hn]
      by_cases hc : (show_window_preview &&
          decide (0 < space.elements_for_output.length)) = true
      · rw [if_pos hc, if_pos hc, List.append_assoc]
      · rw [if_neg hc, if_neg hc, List.append_nil]
    refine ⟨hdef, ?_⟩
    intro e he
    rw [hdef] at he
    simp only [List.mem_append, List.mem_map] at he
    rcases he with (⟨c, _, rfl⟩ | hmid) | ⟨c, _, rfl⟩
    · rfl
    · rcases hcond : (show_window_preview &&
          decide (0 < space.elements_for_output.length)) with _ | _
      · rw [hcond] at hmid
        simp at hmid
      · rw [hcond] at hmid
        rw [if_pos rfl] at hmid
        unfold space_preview_elements at hmid
        simp only [List.mem_map] at hmid
        rcases hmid with ⟨iw, _, rfl⟩
        rfl
    · rfl
  refine ⟨hfsPart, hnPart, ?_⟩
  rintro ⟨⟨e1, he1, hW1⟩, ⟨e2, he2, hSP⟩⟩
  cases hfs : FullscreenSurface.get out.fullscreen_slot with
  | some w =>
      rcases (hfsPart w hfs).2 e2 he2 with ⟨hp, hs⟩
      rcases hSP with h | h
      · rw [hs] at h; cases h
      · rw [hp] at h; cases h
  | none =>
      have h := (hnPart hfs).2 e1 he1
      rw [h] at hW1
      cases hW1

/-- Claim C3 witness: a live fullscreen override yields the transparent clear
color, an empty override slot the opaque one, at a concrete input. -/
theorem frame_composition_paths_witness :
    (output_elements ⟨demoOutput, some winA⟩ demoSpace [7] (fun _ => [0]) [9] true).2 =
      CLEAR_COLOR_FULLSCREEN ∧
    (output_elements ⟨demoOutput, none⟩ demoSpace [7] (fun _ => [0]) [9] true).2 =
      CLEAR_COLOR := by
  constructor
  · have h := ((frame_composition_paths ⟨demoOutput, some winA⟩ demoSpace [7]
      (fun _ => [0]) [9] true).1 winA (by decide)).1
    rw [h]
  · have h := ((frame_composition_paths ⟨demoOutput, none⟩ demoSpace [7]
      (fun _ => [0]) [9] true).2.1 (by decide)).1
    rw [h]

/-! Claim C7: resize requests and liveness. -/

theorem fullscreenStep_resizes_sub (out : Output) (acc : LayoutResult)
    (p : Nat × Window) :
    ∀ e ∈ (WindowManager.fullscreenStep out acc p).resizes,
      e ∈ acc.resizes ∨ (e.1 = p.2 ∧ e.1.hasToplevel = true) := by
  intro e he
  by_cases h0 : (p.1 == 0) = true
  · by_cases htop : p.2.hasToplevel = true
    · simp [WindowManager.fullscreenStep, h0, htop] at he
      rcases he with he | he
      · exact Or.inl he
      · exact Or.inr ⟨by rw [he], by rw [he]; exact htop⟩
    · have htop' : p.2.hasToplevel = false := by simpa using htop
      simp [WindowManager.fullscreenStep, h0, htop'] at he
      exact Or.inl he
  · have h0' : (p.1 == 0) = false := by simpa using h0
    simp [WindowManager.fullscreenStep, h0'] at he
    exact Or.inl he

theorem interactiveStep_resizes_sub (outW outH : Int) (acc : LayoutResult)
    (p : Nat × Window) :
    ∀ e ∈ (AppManger.interactiveStep outW outH acc p).resizes,
      e ∈ acc.resizes ∨ (e.1 = p.2 ∧ e.1.hasToplevel = true) := by
  intro e he
  by_cases h0 : (p.1 == 0) = true
  · by_cases htop : p.2.hasToplevel = true
    · simp [AppManger.interactiveStep, h0, htop] at he
      rcases he with he | he
      · exact Or.inl he
      · exact Or.inr ⟨by rw [he], by rw [he]; exact htop⟩
    · have htop' : p.2.hasToplevel = false := by simpa using htop
      simp [AppManger.interactiveStep, h0, htop'] at he
      exact Or.inl he
  · have h0' : (p.1 == 0) = false := by simpa using h0
    simp [AppManger.interactiveStep, h0'] at he
    exact Or.inl he

theorem previewStep_resizes_sub (outW outH : Int) (acc : LayoutResult)
    (p : Nat × Window) :
    ∀ e ∈ (AppManger.previewStep outW outH acc p).resizes,
      e ∈ acc.resizes ∨ (e.1 = p.2 ∧ e.1.hasToplevel = true) := by
  intro e he
  by_cases htop : p.2.hasToplevel = true
  · simp [AppManger.previewStep, htop] at he
    rcases he with he | he
    · exact Or.inl he
    · exact Or.inr ⟨by rw [he], by rw [he]; exact htop⟩
  · have htop' : p.2.hasToplevel = false := by simpa using htop
    simp [AppManger.previewStep, htop'] at he
    exact Or.inl he

theorem foldl_resizes_from (step : LayoutResult → Nat × Window → LayoutResult)
    (hstep : ∀ acc p, ∀ e ∈ (step acc p).resizes,
      e ∈ acc.resizes ∨ (e.1 = p.2 ∧ e.1.hasToplevel = true))
    (l : List (Nat × Window)) :
    ∀ acc, ∀ e ∈ (l.foldl step acc).resizes,
      e ∈ acc.resizes ∨ (e.1 ∈ l.map Prod.snd ∧ e.1.hasToplevel = true) := by
  induction l with
  | nil => intro acc e he; exact Or.inl he
  | cons p t ih =>
    intro acc e he
    rw [List.foldl_cons] at he
    rcases ih (step acc p) e he with h | h
    · rcases hstep acc p e h with h | h
      · exact Or.inl h
      · exact Or.inr ⟨by rw [List.map_cons, h.1]; exact List.mem_cons_self _ _, h.2⟩
    · exact Or.inr ⟨by rw [List.map_cons]; exact List.mem_cons_of_mem _ h.1, h.2⟩

/-- Claim C7 counterexample: `dyingWindow` is alive while pruning but its
liveness flag is already false by the time the layout loop reaches it
(`aliveAtResize = false`); the pass nevertheless issues the resize request to
it — the only pre-request guard in the code is `window.0.toplevel()` being
present, not a liveness re-check. -/
theorem resize_liveness_recheck_cex :
    (WindowManager.refresh_geometry ⟨[dyingWindow]⟩ ⟨[demoOutput], []⟩).2 =
      .ok ⟨[(dyingWindow, 1920, 1080)], ⟨[demoOutput], [(dyingWindow, 0, 0)]⟩⟩ ∧
    dyingWindow.aliveAtResize = false := by
  decide

/-- Claim C7 (amended): a resize request is issued exactly to windows that
survived `prune()` (their liveness read at prune time was true) and whose
toplevel handle is present; no further liveness re-check happens between
`prune()` and the request, and a skipped (toplevel-less) window changes
nothing else: it is still mapped like any other. -/
theorem resize_requests_after_prune (m : WindowManager) (am : AppManger)
    (s t : SpaceState) :
    (∀ r, (m.refresh_geometry s).2 = .ok r →
      ∀ e ∈ r.resizes, e.1.alive = true ∧ e.1.hasToplevel = true) ∧
    (∀ r, (am.refresh_geometry t).2 = .ok r →
      ∀ e ∈ r.resizes, e.1.alive = true ∧ e.1.hasToplevel = true) := by
  constructor
  · intro r hr e he
    simp only [WindowManager.refresh_geometry] at hr
    cases hout : s.refresh.outputs.head? with
    | none => rw [hout] at hr; simp at hr
    | some out =>
        rw [hout] at hr
        simp only [LayoutOutcome.ok.injEq] at hr
        rw [← hr] at he
        rcases foldl_resizes_from _ (fullscreenStep_resizes_sub out) _ _ e he
          with h | h
        · simp at h
        · obtain ⟨hmem, htl⟩ := h
          rw [List.enum_map_snd, List.mem_reverse] at hmem
          exact ⟨(List.mem_filter.mp hmem).2, htl⟩
  · intro r hr e he
    simp only [AppManger.refresh_geometry] at hr
    cases hout : t.refresh.outputs.head? with
    | none => rw [hout] at hr; simp at hr
    | some out =>
        rw [hout] at hr
        cases hmode : am.mode with
        | INTERACTIVE =>
            rw [show am.remove_dead_window.mode = am.mode from rfl, hmode] at hr
            simp only [LayoutOutcome.ok.injEq] at hr
            rw [← hr] at he
            rcases foldl_resizes_from _ (interactiveStep_resizes_sub out.w out.h)
              _ _ e he with h | h
            · simp at h
            · obtain ⟨hmem, htl⟩ := h
              rw [List.enum_map_snd, List.mem_reverse] at hmem
              exact ⟨(List.mem_filter.mp hmem).2, htl⟩
        | PREVIEW =>
            rw [show am.remove_dead_window.mode = am.mode from rfl, hmode] at hr
            simp only [LayoutOutcome.ok.injEq] at hr
            rw [← hr] at he
            rcases foldl_resizes_from _ (previewStep_resizes_sub out.w out.h)
              _ _ e he with h | h
            · simp at h
            · obtain ⟨hmem, htl⟩ := h
              rw [List.enum_map_snd, List.mem_reverse] at hmem
              exact ⟨(List.mem_filter.mp hmem).2, htl⟩

/-- Claim C7 witness: the single resize request issued for `[winA]` targets a
window that survived prune and has a toplevel handle. -/
theorem resize_requests_after_prune_witness :
    winA.alive = true ∧ winA.hasToplevel = true :=
  (resize_requests_after_prune ⟨[winA]⟩ ⟨[winA], .PREVIEW⟩ demoSpace demoSpace).1
    ⟨[(winA, 1920, 1080)], ⟨[demoOutput], [(winA, 0, 0)]⟩⟩ (by decide)
    (winA, 1920, 1080) (by decide)

/-! Claim C10: the preview-grid divisors. -/

/-- Claim C10: the preview-grid computation divides and takes remainders only
by `elements_per_row = min(count, 4)`; under the `output_elements` guard
(count ≥ 1) this divisor is at least 1, and with count 0 no per-element
computation runs — the preview path contributes no elements at all. -/
theorem preview_guard_divisor (s : SpaceState) (out : OutputState)
    (custom : List Nat) (windowRender : Window → List Nat) (spaceElems : List Nat)
    (W H : Int) :
    (1 ≤ s.elements_for_output.length →
      1 ≤ gridColumns s.elements_for_output.length) ∧
    (s.elements_for_output.length = 0 →
      space_preview_elements s W H = [] ∧
      ∀ e ∈ (output_elements out s custom windowRender spaceElems true).1,
        e.isPreviewElem = false) := by
  constructor
  · intro h
    unfold gridColumns max_elements_per_row
    omega
  · intro h0
    have hnil : s.elements_for_output = [] := List.length_eq_zero.mp h0
    constructor
    · unfold space_preview_elements
      rw [hnil]
      rfl
    · intro e he
      cases hfs : FullscreenSurface.get out.fullscreen_slot with
      | some w =>
          simp only [output_elements, hfs, List.mem_append, List.mem_map] at he
          rcases he with ⟨c, _, rfl⟩ | ⟨c, _, rfl⟩ <;> rfl
      | none =>
          simp [output_elements, hfs, h0] at he
          rcases he with ⟨c, _, rfl⟩ | ⟨c, _, rfl⟩ <;> rfl

/-- Claim C10 witness: with nothing mapped the preview list is empty, and with
one mapped element the divisor is at least 1. -/
theorem preview_guard_divisor_witness :
    space_preview_elements ⟨[], []⟩ 1920 1080 = [] ∧
    1 ≤ gridColumns (SpaceState.mk [demoOutput] [(winA, 0, 0)]).elements_for_output.length :=
  ⟨((preview_guard_divisor ⟨[], []⟩ ⟨demoOutput, none⟩ [] (fun _ => []) []
      1920 1080).2 rfl).1,
   (preview_guard_divisor ⟨[demoOutput], [(winA, 0, 0)]⟩ ⟨demoOutput, none⟩ []
      (fun _ => []) [] 1920 1080).1 (by decide)⟩

/-! Claim C4: the thumbnail-grid formula. -/

/-- Claim C4: the source grid computation agrees with the claimed formula
(columns = min(N, 4), rows = ceil(N / columns), cell = round(output / count) −
2·10, element i at column i mod columns and row i div columns); in particular
for N = 5 on 1920×1080 the grid is 4 columns × 2 rows of 460×520 cells and
element index 4 sits at (10, 540). -/
theorem preview_grid_formula (n : Nat) (W H : Int) (i : Nat) (hn : 1 ≤ n)
    (hi : i < n) :
    previewCell n W H i = claimGridCell n W H i ∧
    gridColumns 5 = 4 ∧ gridRows 5 = 2 ∧
    previewCell 5 1920 1080 4 = ⟨10, 540, 460, 520⟩ ∧
    previewRects 5 1920 1080 =
      [⟨10, 10, 460, 520⟩, ⟨480, 10, 460, 520⟩, ⟨950, 10, 460, 520⟩,
       ⟨1420, 10, 460, 520⟩, ⟨10, 540, 460, 520⟩] := by
  refine ⟨?_, by decide, by decide, by decide, by decide⟩
  unfold previewCell claimGridCell gridRows gridColumns preview_padding
    max_elements_per_row
  norm_num

/-- Claim C4 witness: the formula agreement at N = 5, i = 4 on 1920×1080. -/
theorem preview_grid_formula_witness :
    previewCell 5 1920 1080 4 = claimGridCell 5 1920 1080 4 ∧
    gridColumns 5 = 4 ∧ gridRows 5 = 2 ∧
    previewCell 5 1920 1080 4 = ⟨10, 540, 460, 520⟩ ∧
    previewRects 5 1920 1080 =
      [⟨10, 10, 460, 520⟩, ⟨480, 10, 460, 520⟩, ⟨950, 10, 460, 520⟩,
       ⟨1420, 10, 460, 520⟩, ⟨10, 540, 460, 520⟩] :=
  preview_grid_formula 5 1920 1080 4 (by decide) (by decide)

/-! Claim C5: grid shape, disjointness and containment. -/

theorem previewCell_eq (n : Nat) (W H : Int) (i : Nat) :
    previewCell n W H i =
      ⟨10 + (10 + (roundDiv W (gridColumns n : Int) - 20)) *
          ((i % gridColumns n : Nat) : Int),
       10 + (10 + (roundDiv H (gridRows n : Int) - 20)) *
          ((i / gridColumns n : Nat) : Int),
       roundDiv W (gridColumns n : Int) - 20,
       roundDiv H (gridRows n : Int) - 20⟩ := by
  unfold previewCell preview_padding
  norm_num

theorem roundDiv_mul_le (W c : Int) (hc : 1 ≤ c) :
    c * (roundDiv W c - 10) ≤ W - 10 := by
  rcases hc.eq_or_lt with h1 | h2
  · rw [← h1]
    unfold roundDiv
    omega
  · unfold roundDiv
    have key := Int.ediv_add_emod (2 * W + c) (2 * c)
    have hne : (2 * c) ≠ 0 := by omega
    have hr0 := Int.emod_nonneg (2 * W + c) hne
    have hrlt := Int.emod_lt_of_pos (2 * W + c) (show (0:Int) < 2 * c by omega)
    linarith

theorem le_columns_mul_rows (n : Nat) (hn : 1 ≤ n) :
    n ≤ gridColumns n * gridRows n := by
  unfold gridRows ceilDiv
  have hc : 1 ≤ gridColumns n := by
    unfold gridColumns max_elements_per_row
    omega
  have key := Nat.div_add_mod (n + gridColumns n - 1) (gridColumns n)
  have hm : (n + gridColumns n - 1) % gridColumns n < gridColumns n :=
    Nat.mod_lt _ (by omega)
  obtain ⟨k, hk⟩ : ∃ k, gridColumns n * ((n + gridColumns n - 1) / gridColumns n) = k :=
    ⟨_, rfl⟩
  rw [hk] at key ⊢
  omega

theorem gridRows_pos (n : Nat) (hn : 1 ≤ n) : 1 ≤ gridRows n := by
  have h := le_columns_mul_rows n hn
  by_contra hr
  push_neg at hr
  have h0 : gridRows n = 0 := by omega
  rw [h0, Nat.mul_zero] at h
  omega

theorem row_lt_rows (n i : Nat) (hn : 1 ≤ n) (hi : i < n) :
    i / gridColumns n < gridRows n := by
  have hc : 0 < gridColumns n := by
    unfold gridColumns max_elements_per_row
    omega
  rw [Nat.div_lt_iff_lt_mul hc]
  calc i < n := hi
    _ ≤ gridColumns n * gridRows n := le_columns_mul_rows n hn
    _ = gridRows n * gridColumns n := Nat.mul_comm _ _

theorem previewCell_within (n : Nat) (W H : Int) (i : Nat) (hn : 1 ≤ n)
    (hi : i < n) :
    (previewCell n W H i).Within ⟨10, 10, W - 20, H - 20⟩ := by
  intro p hp
  rw [previewCell_eq] at hp
  obtain ⟨hx1, hx2, hy1, hy2⟩ := hp
  set c := gridColumns n with hcdef
  set rows := gridRows n with hrdef
  set cw := roundDiv W (c : Int) - 20 with hcwdef
  set ch := roundDiv H (rows : Int) - 20 with hchdef
  set col := i % c with hcoldef
  set row := i / c with hrowdef
  simp only at hx1 hx2 hy1 hy2
  have hc1 : 1 ≤ c := by
    rw [hcdef]
    unfold gridColumns max_elements_per_row
    omega
  have hrows1 : 1 ≤ rows := gridRows_pos n hn
  have hcollt : col < c := Nat.mod_lt _ (by omega)
  have hrowlt : row < rows := row_lt_rows n i hn hi
  have hcwpos : (0:Int) < cw := by linarith
  have hchpos : (0:Int) < ch := by linarith
  have hcolnn : (0:Int) ≤ (col : Int) := Int.natCast_nonneg col
  have hrownn : (0:Int) ≤ (row : Int) := Int.natCast_nonneg row
  have hxlo : (10:Int) ≤ p.1 := by
    have := mul_nonneg (show (0:Int) ≤ 10 + cw by linarith) hcolnn
    linarith
  have hylo : (10:Int) ≤ p.2 := by
    have := mul_nonneg (show (0:Int) ≤ 10 + ch by linarith) hrownn
    linarith
  have hcol' : (col : Int) ≤ (c : Int) - 1 := by
    have hlt : (col : Int) < (c : Int) := by exact_mod_cast hcollt
    linarith
  have hrow' : (row : Int) ≤ (rows : Int) - 1 := by
    have hlt : (row : Int) < (rows : Int) := by exact_mod_cast hrowlt
    linarith
  have hmulx : (10 + cw) * (col : Int) ≤ (10 + cw) * ((c : Int) - 1) :=
    mul_le_mul_of_nonneg_left hcol' (by linarith)
  have hmuly : (10 + ch) * (row : Int) ≤ (10 + ch) * ((rows : Int) - 1) :=
    mul_le_mul_of_nonneg_left hrow' (by linarith)
  have hkeyW : (c : Int) * (roundDiv W (c : Int) - 10) ≤ W - 10 :=
    roundDiv_mul_le W c (by exact_mod_cast hc1)
  have hkeyH : (rows : Int) * (roundDiv H (rows : Int) - 10) ≤ H - 10 :=
    roundDiv_mul_le H rows (by exact_mod_cast hrows1)
  have hrdW : roundDiv W (c : Int) - 10 = 10 + cw := by rw [hcwdef]; ring
  have hrdH : roundDiv H (rows : Int) - 10 = 10 + ch := by rw [hchdef]; ring
  rw [hrdW] at hkeyW
  rw [hrdH] at hkeyH
  have hidentx : (10 + cw) * ((c : Int) - 1) = (c : Int) * (10 + cw) - (10 + cw) := by
    ring
  have hidenty : (10 + ch) * ((rows : Int) - 1) =
      (rows : Int) * (10 + ch) - (10 + ch) := by
    ring
  show (10:Int) ≤ p.1 ∧ p.1 < 10 + (W - 20) ∧ (10:Int) ≤ p.2 ∧ p.2 < 10 + (H - 20)
  exact ⟨hxlo, by linarith, hylo, by linarith⟩

theorem previewCell_disjoint (n : Nat) (W H : Int) (i j : Nat) (hn : 1 ≤ n)
    (hij : i ≠ j) :
    (previewCell n W H i).Disjoint (previewCell n W H j) := by
  intro p hpq
  obtain ⟨hpi, hpj⟩ := hpq
  rw [previewCell_eq] at hpi hpj
  obtain ⟨hix1, hix2, hiy1, hiy2⟩ := hpi
  obtain ⟨hjx1, hjx2, hjy1, hjy2⟩ := hpj
  simp only at hix1 hix2 hiy1 hiy2 hjx1 hjx2 hjy1 hjy2
  set c := gridColumns n with hcdef
  set cw := roundDiv W (c : Int) - 20 with hcwdef
  set ch := roundDiv H (gridRows n : Int) - 20 with hchdef
  have hc1 : 1 ≤ c := by
    rw [hcdef]
    unfold gridColumns max_elements_per_row
    omega
  have hcwpos : (0:Int) < cw := by linarith
  have hchpos : (0:Int) < ch := by linarith
  by_cases hcol : i % c = j % c
  · have hrow : i / c ≠ j / c := by
      intro hdiv
      apply hij
      have h1 := Nat.div_add_mod i c
      have h2 := Nat.div_add_mod j c
      rw [hdiv, hcol] at h1
      exact h1.symm.trans h2
    rcases Nat.lt_or_ge (i / c) (j / c) with hlt | hge
    · have hstep : ((i / c : Nat) : Int) + 1 ≤ ((j / c : Nat) : Int) := by
        exact_mod_cast hlt
      have hmul := mul_le_mul_of_nonneg_left hstep
        (show (0:Int) ≤ 10 + ch by linarith)
      have hident : (10 + ch) * (((i / c : Nat) : Int) + 1) =
          (10 + ch) * ((i / c : Nat) : Int) + 10 + ch := by ring
      linarith
    · have hlt : j / c < i / c := lt_of_le_of_ne hge (Ne.symm hrow)
      have hstep : ((j / c : Nat) : Int) + 1 ≤ ((i / c : Nat) : Int) := by
        exact_mod_cast hlt
      have hmul := mul_le_mul_of_nonneg_left hstep
        (show (0:Int) ≤ 10 + ch by linarith)
      have hident : (10 + ch) * (((j / c : Nat) : Int) + 1) =
          (10 + ch) * ((j / c : Nat) : Int) + 10 + ch := by ring
      linarith
  · rcases Nat.lt_or_ge (i % c) (j % c) with hlt | hge
    · have hstep : ((i % c : Nat) : Int) + 1 ≤ ((j % c : Nat) : Int) := by
        exact_mod_cast hlt
      have hmul := mul_le_mul_of_nonneg_left hstep
        (show (0:Int) ≤ 10 + cw by linarith)
      have hident : (10 + cw) * (((i % c : Nat) : Int) + 1) =
          (10 + cw) * ((i % c : Nat) : Int) + 10 + cw := by ring
      linarith
    · have hlt : j % c < i % c := lt_of_le_of_ne hge (Ne.symm hcol)
      have hstep : ((j % c : Nat) : Int) + 1 ≤ ((i % c : Nat) : Int) := by
        exact_mod_cast hlt
      have hmul := mul_le_mul_of_nonneg_left hstep
        (show (0:Int) ≤ 10 + cw by linarith)
      have hident : (10 + cw) * (((j % c : Nat) : Int) + 1) =
          (10 + cw) * ((j % c : Nat) : Int) + 10 + cw := by ring
      linarith

/-- Claim C5: for 1 ≤ N ≤ 8 on an output of positive logical size the grid has
columns = N and rows = 1 when N ≤ 4, columns = 4 and rows = 2 when 5 ≤ N ≤ 8,
and the N cells are pairwise disjoint and lie fully within the output bounds
inset by the padding. -/
theorem preview_grid_bounds (n : Nat) (W H : Int) (h1 : 1 ≤ n) (h2 : n ≤ 8)
    (hW : 0 < W) (hH : 0 < H) :
    (gridColumns n = if n ≤ 4 then n else 4) ∧
    (gridRows n = if n ≤ 4 then 1 else 2) ∧
    (∀ i j, i < n → j < n → i ≠ j →
      (previewCell n W H i).Disjoint (previewCell n W H j)) ∧
    (∀ i, i < n → (previewCell n W H i).Within ⟨10, 10, W - 20, H - 20⟩) := by
  refine ⟨?_, ?_, fun i j _ _ hij => previewCell_disjoint n W H i j h1 hij,
    fun i hi => previewCell_within n W H i h1 hi⟩
  · interval_cases n <;> decide
  · interval_cases n <;> decide

/-- Claim C5 witness: the grid shape and geometry facts at N = 5 on a
1920×1080 output. -/
theorem preview_grid_bounds_witness :
    (gridColumns 5 = if 5 ≤ 4 then 5 else 4) ∧
    (gridRows 5 = if 5 ≤ 4 then 1 else 2) ∧
    (∀ i j, i < 5 → j < 5 → i ≠ j →
      (previewCell 5 1920 1080 i).Disjoint (previewCell 5 1920 1080 j)) ∧
    (∀ i, i < 5 →
      (previewCell 5 1920 1080 i).Within ⟨10, 10, 1920 - 20, 1080 - 20⟩) :=
  preview_grid_bounds 5 1920 1080 (by decide) (by decide) (by decide) (by decide)

end Aurora
